import Mathlib

/-!
Verification development for a small conversational memory system.

The system under study has three Python modules: `memory_manager.py` (regex
extraction of memory candidates, keyword-based importance scoring, and the
chat orchestration), `database.py` (a SQLite-backed record store), and a
presentation-only CLI that is out of scope here.

Embedding conventions:
* Python strings are `List Char`; apostrophes inside literals are written
  with the `\x27` escape.
* SQL timestamps are modelled as `Int` seconds with chronological order;
  `CURRENT_TIMESTAMP` / `datetime.now()` become an explicit `now` argument.
* Python floats are modelled as exact rationals `ℚ` (written with `mkRat`
  so that concrete values compute in the kernel).
* `uuid.uuid4()` is modelled as a fresh-id counter carried in the database
  state; freshness of pre-existing ids is an explicit hypothesis where
  needed.
* Each stateful operation maps a database value to a result paired with the
  successor database value.
-/

/-! ## Extraction engine: a shallow model of `re.findall` for the five
fixed patterns of `extract_memories_from_text`.

Every pattern used by the source is a sequence of case-insensitive literal
pieces, one non-capturing alternation of literals, and greedy `(.+)` capture
groups.  The matcher below implements exactly that fragment with Python's
backtracking preferences: alternatives are tried left to right, `(.+)` is
greedy (longest first), matches are leftmost and non-overlapping, and `.`
does not match a newline. -/

/-- Regex items appearing in the source's five patterns: a case-insensitive
literal, a non-capturing alternation of literals, and a greedy `(.+)`
capture group. -/
inductive RItem where
  | lit (s : List Char) : RItem
  | alt (ss : List (List Char)) : RItem
  | cap : RItem
deriving DecidableEq

/-- Case-insensitive character comparison (the `re.IGNORECASE` flag). -/
def charIEq (a b : Char) : Bool := a.toLower == b.toLower

/-- Match a case-insensitive literal against the front of the input,
returning the remaining input on success. -/
def matchLit : List Char → List Char → Option (List Char)
  | [], s => some s
  | _ :: _, [] => none
  | c :: cs, x :: xs => if charIEq c x then matchLit cs xs else none

/-- Length of the longest prefix that `.` can span: `.` matches any
character except a newline. -/
def dotRun (s : List Char) : Nat := (s.takeWhile (fun c => c != '\n')).length

/-- Try the alternatives of a non-capturing group left to right, with
backtracking into the rest of the pattern (passed as the continuation
`k`). -/
def tryAlts (k : List Char → Option (List (List Char) × List Char)) :
    List (List Char) → List Char → Option (List (List Char) × List Char)
  | [], _ => none
  | a :: more, s =>
    match matchLit a s with
    | none => tryAlts k more s
    | some s2 =>
      match k s2 with
      | some r => some r
      | none => tryAlts k more s

/-- Greedy `(.+)`: try capture lengths from longest (`n`) down to one
character, backtracking into the rest of the pattern (the continuation
`k`). -/
def tryCap (k : List Char → Option (List (List Char) × List Char)) :
    Nat → List Char → Option (List (List Char) × List Char)
  | 0, _ => none
  | Nat.succ m, s =>
    match k (s.drop (m + 1)) with
    | some (caps, r) => some (s.take (m + 1) :: caps, r)
    | none => tryCap k m s

/-- Match a whole item sequence against a prefix of the input, returning
the captured groups in order together with the input left after the match. -/
def matchItems : List RItem → List Char → Option (List (List Char) × List Char)
  | [], s => some ([], s)
  | RItem.lit l :: rest, s =>
    match matchLit l s with
    | none => none
    | some s2 => matchItems rest s2
  | RItem.alt alts :: rest, s => tryAlts (fun s2 => matchItems rest s2) alts s
  | RItem.cap :: rest, s => tryCap (fun s2 => matchItems rest s2) (dotRun s) s

/-- Worker for `findAllCaps`: scan left to right, continuing after the end
of each (non-overlapping) match; an empty match advances by one character,
mirroring `re.findall`.  The `fuel` argument only makes the recursion
structural; `findAllCaps` supplies enough fuel that it never runs out,
since every step consumes at least one character of the input. -/
def findAllAux (p : List RItem) : Nat → List Char → List (List (List Char))
  | 0, _ => []
  | Nat.succ fuel, s =>
    match matchItems p s with
    | some (caps, rest) =>
      if rest.length < s.length then
        caps :: findAllAux p fuel rest
      else
        match s with
        | [] => [caps]
        | _ :: t => caps :: findAllAux p fuel t
    | none =>
      match s with
      | [] => []
      | _ :: t => findAllAux p fuel t

/-- All matches of a pattern over the input, leftmost first, as produced by
`re.findall`. -/
def findAllCaps (p : List RItem) (s : List Char) : List (List (List Char)) :=
  findAllAux p (s.length + 1) s

/-- Pattern `I (?:use|work with|like|prefer|have|am|do) (.+)`. -/
def pat1 : List RItem :=
  [ RItem.lit "I ".data,
    RItem.alt [ "use".data, "work with".data, "like".data, "prefer".data,
      "have".data, "am".data, "do".data ],
    RItem.lit " ".data, RItem.cap ]

/-- Pattern `My (.+) is (.+)`. -/
def pat2 : List RItem :=
  [ RItem.lit "My ".data, RItem.cap, RItem.lit " is ".data, RItem.cap ]

/-- Pattern `I don't (?:use|like|want|have) (.+)`. -/
def pat3 : List RItem :=
  [ RItem.lit "I don\x27t ".data,
    RItem.alt [ "use".data, "like".data, "want".data, "have".data ],
    RItem.lit " ".data, RItem.cap ]

/-- Pattern `Remember that (.+)`. -/
def pat4 : List RItem := [ RItem.lit "Remember that ".data, RItem.cap ]

/-- Pattern `(?:FYI|Note|Important): (.+)`. -/
def pat5 : List RItem :=
  [ RItem.alt [ "FYI".data, "Note".data, "Important".data ],
    RItem.lit ": ".data, RItem.cap ]

/-- The ordered pattern list `memory_patterns` of the source. -/
def memory_patterns : List (List RItem) := [ pat1, pat2, pat3, pat4, pat5 ]

/-- Python `str.strip()`: drop whitespace from both ends. -/
def pyStrip (s : List Char) : List Char :=
  ((s.dropWhile Char.isWhitespace).reverse.dropWhile Char.isWhitespace).reverse

/-- Python's `" ".join` over the captured groups of one match.  For a
single-group pattern `re.findall` returns the group itself, which coincides
with joining a one-element list. -/
def joinSpace (xs : List (List Char)) : List Char := List.intercalate " ".data xs

/-- `extract_memories_from_text`: run every pattern over the full text in
order, join each match's groups with a space, strip, and keep candidates of
length strictly greater than 5.  The `user_id` argument is accepted and
ignored exactly as in the source. -/
def extract_memories_from_text (text : List Char) (user_id : List Char) :
    List (List Char) :=
  (memory_patterns.map (fun p =>
    ((findAllCaps p text).map (fun caps => pyStrip (joinSpace caps))).filter
      (fun m => 5 < m.length))).flatten

/-! ## Importance scorer (`analyze_importance`) -/

/-- Substring containment, Python's `needle in hay` for strings. -/
def containsSub (needle : List Char) : List Char → Bool
  | [] => needle.isEmpty
  | x :: t => needle.isPrefixOf (x :: t) || containsSub needle t

/-- The `high_importance_keywords` list of the source. -/
def high_importance_keywords : List (List Char) :=
  [ "important".data, "critical".data, "always".data, "never".data,
    "prefer".data, "hate".data, "love".data, "essential".data, "must".data,
    "required".data, "need".data ]

/-- The `medium_importance_keywords` list of the source. -/
def medium_importance_keywords : List (List Char) :=
  [ "like".data, "use".data, "work".data, "project".data, "team".data,
    "company".data, "usually".data ]

/-- `analyze_importance`: base score 0.5, plus 0.2 for every high-importance
keyword and 0.1 for every medium-importance keyword occurring in the
lowercased `content + " " + context`, plus 0.1 when the content is longer
than 100 characters, capped at 1.0. -/
def analyze_importance (memory_content : List Char) (context : List Char) : ℚ :=
  let text_to_analyze := (memory_content ++ (' ' :: context)).map Char.toLower
  let s1 := high_importance_keywords.foldl
    (fun sc kw => if containsSub kw text_to_analyze then sc + mkRat 2 10 else sc)
    (mkRat 5 10)
  let s2 := medium_importance_keywords.foldl
    (fun sc kw => if containsSub kw text_to_analyze then sc + mkRat 1 10 else sc)
    s1
  let s3 := if 100 < memory_content.length then s2 + mkRat 1 10 else s2
  min s3 1

/-! ## Storage layer (`database.py`)

A `Memory` record mirrors one row of the `memories` table; the
`conversations` table is not involved in any claim.  `uuid.uuid4()` is
modelled by the `nextId` counter, and both timestamp columns (filled by
`CURRENT_TIMESTAMP` on insert) take the explicit `now` argument. -/

/-- One row of the `memories` table. -/
structure Memory where
  id : Nat
  user_id : List Char
  memory_content : List Char
  context : List Char
  created_at : Int
  last_accessed : Int
  access_count : Nat
  tags : List (List Char)
  importance_score : ℚ
deriving DecidableEq

/-- The database state: the `memories` table plus the fresh-id source. -/
structure MemoryDatabase where
  memories : List Memory
  nextId : Nat
deriving DecidableEq

/-- `create_memory` of `database.py`: insert a row with a fresh id,
`created_at = last_accessed = now` and `access_count = 0`, returning the
new id. -/
def MemoryDatabase.create_memory (db : MemoryDatabase) (now : Int)
    (user_id memory_content context : List Char) (tags : List (List Char))
    (importance_score : ℚ) : Nat × MemoryDatabase :=
  let memory_id := db.nextId
  (memory_id,
    { memories := db.memories ++
        [ { id := memory_id, user_id := user_id,
            memory_content := memory_content, context := context,
            created_at := now, last_accessed := now, access_count := 0,
            tags := tags, importance_score := importance_score } ],
      nextId := db.nextId + 1 })

/-- The retrieval order `ORDER BY importance_score DESC, last_accessed
DESC`: `a` may come before `b` when `a` has higher importance, or equal
importance and no older `last_accessed`. -/
def MemOrdered (a b : Memory) : Prop :=
  b.importance_score < a.importance_score ∨
    (a.importance_score = b.importance_score ∧ b.last_accessed ≤ a.last_accessed)

instance : DecidableRel MemOrdered := fun a b =>
  inferInstanceAs (Decidable (b.importance_score < a.importance_score ∨
    (a.importance_score = b.importance_score ∧
      b.last_accessed ≤ a.last_accessed)))

instance : IsTotal Memory MemOrdered :=
  ⟨fun a b => by
    unfold MemOrdered
    rcases lt_trichotomy a.importance_score b.importance_score with h | h | h
    · exact Or.inr (Or.inl h)
    · rcases le_total b.last_accessed a.last_accessed with h2 | h2
      · exact Or.inl (Or.inr ⟨h, h2⟩)
      · exact Or.inr (Or.inr ⟨h.symm, h2⟩)
    · exact Or.inl (Or.inl h)⟩

instance : IsTrans Memory MemOrdered :=
  ⟨fun a b c hab hbc => by
    unfold MemOrdered at *
    rcases hab with hab | ⟨hab1, hab2⟩
    · rcases hbc with hbc | ⟨hbc1, hbc2⟩
      · exact Or.inl (lt_trans hbc hab)
      · exact Or.inl (hbc1 ▸ hab)
    · rcases hbc with hbc | ⟨hbc1, hbc2⟩
      · exact Or.inl (hab1 ▸ hbc)
      · exact Or.inr ⟨hab1.trans hbc1, le_trans hbc2 hab2⟩⟩

/-- `get_memories` of `database.py`: the user's rows, ordered by importance
then recency, truncated to `limit`.  The query writes nothing, so the
database component is returned unchanged. -/
def MemoryDatabase.get_memories (db : MemoryDatabase) (user_id : List Char)
    (limit : Nat) : List Memory × MemoryDatabase :=
  (((db.memories.filter (fun r => r.user_id == user_id)).insertionSort
      MemOrdered).take limit, db)

/-- The `LIKE '%' || query || '%'` filter of `search_memories`, modelled as
case-insensitive substring containment (SQLite `LIKE` is case-insensitive
for ASCII; the `%`/`_` wildcard syntax inside `query` itself is not
modelled, and no claim exercises it). -/
def likeContains (query text : List Char) : Bool :=
  containsSub (query.map Char.toLower) (text.map Char.toLower)

/-- `search_memories` of `database.py`: like `get_memories` but restricted
to rows whose content or context contains `query`. -/
def MemoryDatabase.search_memories (db : MemoryDatabase)
    (user_id query : List Char) (limit : Nat) : List Memory × MemoryDatabase :=
  (((db.memories.filter (fun r => r.user_id == user_id &&
      (likeContains query r.memory_content ||
        likeContains query r.context))).insertionSort MemOrdered).take limit,
    db)

/-- The row transformation of `update_memory_access`: touch `last_accessed`
and increment `access_count`. -/
def bumpAccess (now : Int) (r : Memory) : Memory :=
  { r with last_accessed := now, access_count := r.access_count + 1 }

/-- `update_memory_access` of `database.py`: update the row with the given
id (a silent no-op when no row has it). -/
def MemoryDatabase.update_memory_access (db : MemoryDatabase) (now : Int)
    (memory_id : Nat) : MemoryDatabase :=
  { db with memories :=
      db.memories.map (fun r => if r.id == memory_id then bumpAccess now r else r) }

/-- The deletion condition of `cleanup_old_memories`: older than the cutoff
and of importance below 0.7. -/
def staleLowImportance (cutoff : Int) (r : Memory) : Bool :=
  decide (r.created_at < cutoff) && decide (r.importance_score < mkRat 7 10)

/-- `cleanup_old_memories` of `database.py`: delete every row created
before `now - days` (in seconds) whose importance is below 0.7, returning
the number of deleted rows. -/
def MemoryDatabase.cleanup_old_memories (db : MemoryDatabase) (now : Int)
    (days : Nat) : Nat × MemoryDatabase :=
  let cutoff := now - (days : Int) * 86400
  ((db.memories.filter (staleLowImportance cutoff)).length,
    { db with memories :=
        db.memories.filter (fun r => ! staleLowImportance cutoff r) })

/-- Lookup of the row with a given id, used to state frame properties. -/
def MemoryDatabase.findMem (db : MemoryDatabase) (memory_id : Nat) :
    Option Memory :=
  db.memories.find? (fun r => r.id == memory_id)

/-! ## Memory manager (`memory_manager.py`)

The OpenAI client is modelled as an optional completion function: `none`
when no valid API key is configured, otherwise a function from the prepared
message list to either the assistant's reply or a failure description (the
exception text).  The fixed request parameters (model name, `max_tokens`,
`temperature`) are absorbed into that function. -/

/-- One entry of the `messages` list sent to the provider. -/
structure ChatMsg where
  role : List Char
  content : List Char
deriving DecidableEq

/-- The external completion capability behind `self.client`. -/
def Provider := List ChatMsg → Except (List Char) (List Char)

/-- `create_memory` of `memory_manager.py`: score the content with
`analyze_importance`, then persist. -/
def MemoryManager.create_memory (db : MemoryDatabase) (now : Int)
    (user_id memory_content context : List Char) (tags : List (List Char)) :
    Nat × MemoryDatabase :=
  let importance_score := analyze_importance memory_content context
  db.create_memory now user_id memory_content context tags importance_score

/-- `process_user_input`: extract candidates from the input and create one
memory per candidate with context `"From conversation: " + context` and no
tags, returning the created ids in extraction order. -/
def MemoryManager.process_user_input (db : MemoryDatabase) (now : Int)
    (user_id user_input context : List Char) : List Nat × MemoryDatabase :=
  let extracted_memories := extract_memories_from_text user_input user_id
  extracted_memories.foldl
    (fun acc memory_content =>
      let r := MemoryManager.create_memory acc.2 now user_id memory_content
        ("From conversation: ".data ++ context) []
      (acc.1 ++ [ r.1 ], r.2))
    ([], db)

/-- `get_relevant_memories`: search when the query is non-empty, otherwise
list; then bump the access stats of every returned memory. -/
def MemoryManager.get_relevant_memories (db : MemoryDatabase) (now : Int)
    (user_id query : List Char) (limit : Nat) :
    List Memory × MemoryDatabase :=
  let memories :=
    if query.isEmpty then (db.get_memories user_id limit).1
    else (db.search_memories user_id query limit).1
  (memories, memories.foldl (fun d m => d.update_memory_access now m.id) db)

/-- `format_memories_for_context`: empty input gives the empty string;
otherwise a header line, one bullet per memory, and an indented tag line
after each memory that has tags, all joined with newlines. -/
def MemoryManager.format_memories_for_context (memories : List Memory) :
    List Char :=
  if memories.isEmpty then []
  else
    let context_parts :=
      [ "Here\x27s what I remember about you:".data ] ++
        (memories.map (fun m =>
          [ "- ".data ++ m.memory_content ] ++
            (if m.tags.isEmpty then []
             else [ "  (Tags: ".data ++ List.intercalate ", ".data m.tags ++
                 ")".data ]))).flatten
    List.intercalate "\n".data context_parts

/-- The `messages` list `chat_with_memory` sends to the provider: the
system instruction (augmented with the memory context block when it is
non-empty), the prior history, then the new user turn. -/
def buildChatMessages (memory_context : List Char)
    (conversation_history : List ChatMsg) (user_message : List Char) :
    List ChatMsg :=
  let system_message :=
    "You are a helpful assistant with access to user memories.".data ++
      (if memory_context.isEmpty then [] else "\n\n".data ++ memory_context)
  ({ role := "system".data, content := system_message } ::
      conversation_history) ++
    [ { role := "user".data, content := user_message } ]

/-- `chat_with_memory`: create memories from the user message, retrieve and
format relevant memories, then either report the missing provider, or call
it and on success also extract memories from its reply, or on failure
return the error text; always paired with the created ids. -/
def MemoryManager.chat_with_memory (client : Option Provider)
    (db : MemoryDatabase) (now : Int) (user_id user_message : List Char)
    (conversation_history : List ChatMsg) :
    (List Char × List Nat) × MemoryDatabase :=
  let pu := MemoryManager.process_user_input db now user_id user_message []
  let new_memory_ids := pu.1
  let gr := MemoryManager.get_relevant_memories pu.2 now user_id user_message 5
  let memory_context := MemoryManager.format_memories_for_context gr.1
  match client with
  | none =>
    (("OpenAI API key not configured. Please add your API key to the .env file. However, I created ".data ++
        (Nat.repr new_memory_ids.length).data ++
        " memories from your message: \x27".data ++ user_message ++
        "\x27".data,
      new_memory_ids), gr.2)
  | some complete =>
    let messages :=
      buildChatMessages memory_context conversation_history user_message
    match complete messages with
    | Except.ok assistant_response =>
      let pa := MemoryManager.process_user_input gr.2 now user_id
        assistant_response "Assistant response".data
      ((assistant_response, new_memory_ids ++ pa.1), pa.2)
    | Except.error e =>
      (("Error communicating with OpenAI: ".data ++ e ++
          ". Please check your API key and internet connection.".data,
        new_memory_ids), gr.2)

/-- The exact message list `chat_with_memory` hands to the provider,
exposed so that provider-failure hypotheses can be stated about it. -/
def MemoryManager.chat_messages (db : MemoryDatabase) (now : Int)
    (user_id user_message : List Char)
    (conversation_history : List ChatMsg) : List ChatMsg :=
  let pu := MemoryManager.process_user_input db now user_id user_message []
  let gr := MemoryManager.get_relevant_memories pu.2 now user_id user_message 5
  buildChatMessages (MemoryManager.format_memories_for_context gr.1)
    conversation_history user_message

/-! ## Helper lemmas -/

/-- The empty string is a substring of everything, so an empty search query
matches every row. -/
theorem containsSub_nil (hay : List Char) : containsSub [] hay = true := by
  cases hay <;> simp [containsSub, List.isPrefixOf]

/-- A fold that adds a fixed bonus for every list element satisfying `p`
adds the bonus once per satisfying element. -/
theorem foldl_if_add (c : ℚ) (p : List Char → Bool) :
    ∀ (kws : List (List Char)) (init : ℚ),
      kws.foldl (fun sc kw => if p kw then sc + c else sc) init
        = init + c * kws.countP p := by
  intro kws
  induction kws with
  | nil => intro init; simp
  | cons k ks ih =>
    intro init
    cases hpk : p k <;>
      simp only [List.foldl_cons, hpk, if_true, if_false, List.countP_cons,
        ih, Bool.false_eq_true, Bool.true_eq_false] <;>
      push_cast <;> ring

/-! ## Claim theorems -/

/-- C2: `analyze_importance` returns
`min 1 (0.5 + 0.2·H + 0.1·M + L)` where `H` and `M` count the distinct
high- and medium-importance keywords occurring as substrings of the
lowercased `content ++ " " ++ context` and `L` is the long-content bonus;
the result lies in `[0, 1]`, and the function is pure. -/
theorem analyze_importance_spec (content context : List Char) :
    (analyze_importance content context =
      min 1 (mkRat 5 10
        + mkRat 2 10 * (high_importance_keywords.countP
            (fun kw => containsSub kw ((content ++ (' ' :: context)).map Char.toLower)) : ℚ)
        + mkRat 1 10 * (medium_importance_keywords.countP
            (fun kw => containsSub kw ((content ++ (' ' :: context)).map Char.toLower)) : ℚ)
        + (if 100 < content.length then mkRat 1 10 else 0)))
    ∧ 0 ≤ analyze_importance content context
    ∧ analyze_importance content context ≤ 1
    ∧ (∀ content2 context2 : List Char, content = content2 → context = context2 →
        analyze_importance content context = analyze_importance content2 context2) := by
  have hform : analyze_importance content context =
      min 1 (mkRat 5 10
        + mkRat 2 10 * (high_importance_keywords.countP
            (fun kw => containsSub kw ((content ++ (' ' :: context)).map Char.toLower)) : ℚ)
        + mkRat 1 10 * (medium_importance_keywords.countP
            (fun kw => containsSub kw ((content ++ (' ' :: context)).map Char.toLower)) : ℚ)
        + (if 100 < content.length then mkRat 1 10 else 0)) := by
    simp only [analyze_importance, foldl_if_add]
    by_cases hL : 100 < content.length
    · simp only [hL, if_true]
      exact min_comm _ _
    · simp only [hL, if_false, add_zero]
      exact min_comm _ _
  have hnonneg : (0 : ℚ) ≤ mkRat 5 10
      + mkRat 2 10 * (high_importance_keywords.countP
          (fun kw => containsSub kw ((content ++ (' ' :: context)).map Char.toLower)) : ℚ)
      + mkRat 1 10 * (medium_importance_keywords.countP
          (fun kw => containsSub kw ((content ++ (' ' :: context)).map Char.toLower)) : ℚ)
      + (if 100 < content.length then mkRat 1 10 else 0) := by
    have h1 : (0:ℚ) ≤ mkRat 5 10 := by decide
    have h2 : (0:ℚ) ≤ mkRat 2 10 * (high_importance_keywords.countP
        (fun kw => containsSub kw ((content ++ (' ' :: context)).map Char.toLower)) : ℚ) :=
      mul_nonneg (by decide) (Nat.cast_nonneg _)
    have h3 : (0:ℚ) ≤ mkRat 1 10 * (medium_importance_keywords.countP
        (fun kw => containsSub kw ((content ++ (' ' :: context)).map Char.toLower)) : ℚ) :=
      mul_nonneg (by decide) (Nat.cast_nonneg _)
    have h4 : (0:ℚ) ≤ (if 100 < content.length then mkRat 1 10 else 0) := by
      split
      · decide
      · exact le_refl 0
    linarith
  refine ⟨hform, ?_, ?_, ?_⟩
  · rw [hform]
    exact le_min (by norm_num) hnonneg
  · rw [hform]
    exact min_le_left 1 _
  · intro content2 context2 h1 h2
    rw [h1, h2]

/-- Witness for C2, evaluated on a concrete message: two high-importance
keywords give score 0.9. -/
theorem analyze_importance_spec_witness :
    analyze_importance "I always prefer tea".data [] = mkRat 9 10
    ∧ analyze_importance "I always prefer tea".data [] ≤ 1
    ∧ analyze_importance "I always prefer tea".data []
        = analyze_importance "I always prefer tea".data [] :=
  ⟨by with_unfolding_all decide,
    (analyze_importance_spec "I always prefer tea".data []).2.2.1,
    (analyze_importance_spec "I always prefer tea".data []).2.2.2 _ _ rfl rfl⟩

/-- C3: on the input `"My favorite programming language is Python"` the
extraction engine produces exactly the candidate
`"favorite programming language Python"`: the two captures of the
`My A is B` pattern joined by one space, field first. -/
theorem extract_my_is_pattern (user_id : List Char) :
    extract_memories_from_text
        "My favorite programming language is Python".data user_id
      = [ "favorite programming language Python".data ] := rfl

/-- C10: extraction depends only on the text; the `user_id` argument is
ignored, and as a pure function the result is the same on every run. -/
theorem extract_memories_user_independent (text u1 u2 : List Char) :
    extract_memories_from_text text u1 = extract_memories_from_text text u2 :=
  rfl

/-- C9: searching with the empty query degenerates to `LIKE '%%'`, which
matches every row of the user, so the call coincides with `get_memories`
in both its returned rows and their order. -/
theorem search_empty_query_eq_get (db : MemoryDatabase) (user_id : List Char)
    (limit : Nat) :
    db.search_memories user_id [] limit = db.get_memories user_id limit := by
  have h : db.memories.filter (fun r => r.user_id == user_id &&
        (likeContains [] r.memory_content || likeContains [] r.context))
      = db.memories.filter (fun r => r.user_id == user_id) := by
    apply List.filter_congr
    intro r _
    simp [likeContains, containsSub_nil]
  simp only [MemoryDatabase.search_memories, MemoryDatabase.get_memories, h]

/-- C7: the cleanup sweep deletes exactly the rows older than the cutoff
with importance below 0.7 and reports their number; a 1000-day-old row of
importance 0.9 survives `cleanup_old_memories 365`, one of importance 0.3
does not. -/
theorem cleanup_old_memories_spec (db : MemoryDatabase) (now : Int)
    (days : Nat) :
    ((db.cleanup_old_memories now days).1 =
      (db.memories.filter (fun r =>
        decide (r.created_at < now - (days : Int) * 86400) &&
          decide (r.importance_score < mkRat 7 10))).length)
    ∧ (∀ r ∈ db.memories,
        r ∈ (db.cleanup_old_memories now days).2.memories ↔
          ¬(r.created_at < now - (days : Int) * 86400 ∧
            r.importance_score < mkRat 7 10))
    ∧ (∀ r ∈ db.memories, r.created_at = now - 1000 * 86400 →
        (r.importance_score = mkRat 9 10 →
          r ∈ (db.cleanup_old_memories now 365).2.memories)
        ∧ (r.importance_score = mkRat 3 10 →
          r ∉ (db.cleanup_old_memories now 365).2.memories)) := by
  have hst : ∀ (c : Int) (r : Memory), staleLowImportance c r = true ↔
      (r.created_at < c ∧ r.importance_score < mkRat 7 10) := by
    intro c r
    simp [staleLowImportance]
  refine ⟨rfl, ?_, ?_⟩
  · intro r hr
    simp only [MemoryDatabase.cleanup_old_memories, List.mem_filter, hr,
      true_and, Bool.not_eq_true']
    rw [← Bool.not_eq_true]
    exact not_congr (hst _ r)
  · intro r hr hc
    constructor
    · intro h9
      simp only [MemoryDatabase.cleanup_old_memories, List.mem_filter,
        Bool.not_eq_true']
      refine ⟨hr, ?_⟩
      rw [← Bool.not_eq_true, hst]
      intro hab
      have h7 : ¬ (r.importance_score < mkRat 7 10) := by
        rw [h9]; decide
      exact h7 hab.2
    · intro h3 hmem
      simp only [MemoryDatabase.cleanup_old_memories, List.mem_filter,
        Bool.not_eq_true'] at hmem
      have h2 := hmem.2
      rw [← Bool.not_eq_true, hst] at h2
      have himp : r.importance_score < mkRat 7 10 := by
        rw [h3]; decide
      exact h2 ⟨by rw [hc]; omega, himp⟩

/-- Fixture for the C7 witness: a 1000-day-old row of importance 0.9. -/
def keepRow : Memory :=
  { id := 0, user_id := "u".data, memory_content := "keep me".data,
    context := [], created_at := -86400000, last_accessed := 0,
    access_count := 0, tags := [], importance_score := mkRat 9 10 }

/-- Fixture for the C7 witness: a 1000-day-old row of importance 0.3. -/
def dropRow : Memory :=
  { id := 1, user_id := "u".data, memory_content := "drop me".data,
    context := [], created_at := -86400000, last_accessed := 0,
    access_count := 0, tags := [], importance_score := mkRat 3 10 }

/-- Fixture for the C7 witness: a two-row table. -/
def cleanupDb : MemoryDatabase :=
  { memories := [ keepRow, dropRow ], nextId := 2 }

/-- Witness for C7: in a two-row table with the configuration of the
claim, the sweep at `now = 0` removes exactly the low-importance row. -/
theorem cleanup_old_memories_spec_witness :
    keepRow ∈ (cleanupDb.cleanup_old_memories 0 365).2.memories
    ∧ dropRow ∉ (cleanupDb.cleanup_old_memories 0 365).2.memories :=
  ⟨((cleanup_old_memories_spec cleanupDb 0 365).2.2 keepRow (by decide)
        (by decide)).1 rfl,
    ((cleanup_old_memories_spec cleanupDb 0 365).2.2 dropRow (by decide)
        (by decide)).2 rfl⟩

/-- Elements surviving filter, sort and truncation come from the original
table. -/
theorem take_sort_filter_sub (p : Memory → Bool) (ms : List Memory)
    (limit : Nat) :
    ∀ m ∈ ((ms.filter p).insertionSort MemOrdered).take limit, m ∈ ms := by
  intro m hm
  have h2 := List.mem_of_mem_take hm
  rw [(List.perm_insertionSort MemOrdered _).mem_iff, List.mem_filter] at h2
  exact h2.1

/-- Filtering, sorting and truncating a table with pairwise-distinct ids
yields rows with pairwise-distinct ids. -/
theorem take_sort_filter_nodup (p : Memory → Bool) (ms : List Memory)
    (limit : Nat) (h : (ms.map Memory.id).Nodup) :
    ((((ms.filter p).insertionSort MemOrdered).take limit).map Memory.id).Nodup := by
  have h1 : ((ms.filter p).map Memory.id).Nodup :=
    List.Sublist.nodup (List.Sublist.map Memory.id (List.filter_sublist ms)) h
  have h2 : (((ms.filter p).insertionSort MemOrdered).map Memory.id).Nodup :=
    (((List.perm_insertionSort MemOrdered (ms.filter p)).map Memory.id).symm).nodup h1
  rw [List.map_take]
  exact List.Sublist.nodup (List.take_sublist _ _) h2

/-- C4: `get_memories` returns at most `limit` rows, all belonging to the
requested user, sorted by importance descending then `last_accessed`
descending; it leaves the database untouched, so an immediately repeated
call returns the same sequence. -/
theorem get_memories_spec (db : MemoryDatabase) (user_id : List Char)
    (limit : Nat) :
    ((db.get_memories user_id limit).1.length ≤ limit)
    ∧ (∀ m ∈ (db.get_memories user_id limit).1,
        m.user_id = user_id ∧ m ∈ db.memories)
    ∧ List.Sorted MemOrdered (db.get_memories user_id limit).1
    ∧ (db.get_memories user_id limit).2 = db
    ∧ ((db.get_memories user_id limit).2.get_memories user_id limit
        = db.get_memories user_id limit) := by
  refine ⟨List.length_take_le _ _, ?_, ?_, rfl, rfl⟩
  · intro m hm
    have h2 := List.mem_of_mem_take hm
    rw [(List.perm_insertionSort MemOrdered _).mem_iff, List.mem_filter] at h2
    exact ⟨eq_of_beq h2.2, h2.1⟩
  · exact List.Pairwise.sublist (List.take_sublist _ _)
      (List.sorted_insertionSort MemOrdered _)

/-- Fixture: a low-importance row. -/
def rowA : Memory :=
  { id := 0, user_id := "u".data, memory_content := "alpha row".data,
    context := [], created_at := 0, last_accessed := 0, access_count := 0,
    tags := [], importance_score := mkRat 1 2 }

/-- Fixture: a high-importance row. -/
def rowB : Memory :=
  { id := 1, user_id := "u".data, memory_content := "beta row".data,
    context := [], created_at := 0, last_accessed := 5, access_count := 0,
    tags := [], importance_score := mkRat 9 10 }

/-- Fixture: a two-row table for the retrieval witnesses. -/
def getDb : MemoryDatabase := { memories := [ rowA, rowB ], nextId := 2 }

/-- Witness for C4: on a concrete two-row table the bound and the
membership conjunct hold for the returned top row. -/
theorem get_memories_spec_witness :
    ((getDb.get_memories "u".data 1).1.length ≤ 1)
    ∧ (rowB.user_id = "u".data ∧ rowB ∈ getDb.memories) :=
  ⟨(get_memories_spec getDb "u".data 1).1,
    (get_memories_spec getDb "u".data 1).2.1 rowB (by with_unfolding_all decide)⟩

/-- C5: after `create_memory`, any row returned by `get_memories` that
carries the fresh id is the inserted row: its content, tags and importance
are the supplied ones, its access count is zero and its `last_accessed`
equals its `created_at`. -/
theorem create_then_get_roundtrip (db : MemoryDatabase) (now : Int)
    (user_id content context : List Char) (tags : List (List Char))
    (importance : ℚ) (limit : Nat)
    (hfresh : ∀ r ∈ db.memories, r.id < db.nextId) :
    ∀ m ∈ ((db.create_memory now user_id content context tags
        importance).2.get_memories user_id limit).1,
      m.id = (db.create_memory now user_id content context tags
          importance).1 →
        m.memory_content = content ∧ m.tags = tags
          ∧ m.importance_score = importance ∧ m.access_count = 0
          ∧ m.last_accessed = m.created_at := by
  intro m hm hid
  have hmem : m ∈ (db.create_memory now user_id content context tags
      importance).2.memories := by
    have h2 := List.mem_of_mem_take hm
    rw [(List.perm_insertionSort MemOrdered _).mem_iff, List.mem_filter] at h2
    exact h2.1
  simp only [MemoryDatabase.create_memory, List.mem_append,
    List.mem_singleton] at hmem
  simp only [MemoryDatabase.create_memory] at hid
  rcases hmem with hold | hnew
  · have := hfresh m hold
    omega
  · subst hnew
    exact ⟨rfl, rfl, rfl, rfl, rfl⟩

/-- Fixture: the empty database. -/
def emptyDb : MemoryDatabase := { memories := [], nextId := 0 }

/-- Fixture: the row `create_memory` inserts in the C5 witness. -/
def createdRow : Memory :=
  { id := 0, user_id := "u".data, memory_content := "hello there".data,
    context := [], created_at := 7, last_accessed := 7, access_count := 0,
    tags := [ "t".data ], importance_score := mkRat 3 4 }

/-- Witness for C5: creating in the empty database and listing with
limit 10 returns the inserted row with the supplied fields. -/
theorem create_then_get_roundtrip_witness :
    createdRow.memory_content = "hello there".data
    ∧ createdRow.tags = [ "t".data ]
    ∧ createdRow.importance_score = mkRat 3 4
    ∧ createdRow.access_count = 0
    ∧ createdRow.last_accessed = createdRow.created_at :=
  create_then_get_roundtrip emptyDb 7 "u".data "hello there".data [] [ "t".data ]
    (mkRat 3 4) 10 (by simp [emptyDb]) createdRow
    (by with_unfolding_all decide) rfl

/-- The access bump leaves the row id unchanged. -/
theorem bump_preserves_id (now : Int) (j : Nat) (r : Memory) :
    (if r.id == j then bumpAccess now r else r).id = r.id := by
  split <;> rfl

/-- Finding a row by id commutes with bumping the rows of id `j`. -/
theorem find?_bumpList (now : Int) (j i : Nat) (ms : List Memory) :
    (ms.map (fun r => if r.id == j then bumpAccess now r else r)).find?
        (fun r => r.id == i)
      = (ms.find? (fun r => r.id == i)).map
          (fun r => if r.id == j then bumpAccess now r else r) := by
  rw [List.find?_map]
  have hp : ((fun r : Memory => r.id == i) ∘
        (fun r => if r.id == j then bumpAccess now r else r))
      = (fun r : Memory => r.id == i) := by
    funext r
    simp only [Function.comp_apply]
    rw [bump_preserves_id]
  rw [hp]

/-- A sequence of bumps whose ids avoid `i` does not affect the row with
id `i`. -/
theorem find?_foldBump_not_mem (now : Int) (i : Nat) :
    ∀ (ids : List Nat) (ms : List Memory), i ∉ ids →
      ((ids.foldl (fun ms2 j =>
          ms2.map (fun r => if r.id == j then bumpAccess now r else r))
          ms).find? (fun r => r.id == i))
        = ms.find? (fun r => r.id == i) := by
  intro ids
  induction ids with
  | nil => intro ms _; rfl
  | cons j js ih =>
    intro ms hni
    have hij : i ≠ j := fun h => hni (h ▸ List.mem_cons_self j js)
    have hji : i ∉ js := fun h => hni (List.mem_cons_of_mem j h)
    rw [List.foldl_cons, ih _ hji, find?_bumpList]
    cases hf : ms.find? (fun r => r.id == i) with
    | none => rfl
    | some r =>
      have hid : r.id = i := by simpa using List.find?_some hf
      simp [hid, hij]

/-- Bumping once for every id of a duplicate-free id list containing `i`
bumps the row with id `i` exactly once. -/
theorem find?_foldBump_mem (now : Int) (i : Nat) :
    ∀ (ids : List Nat) (ms : List Memory), ids.Nodup → i ∈ ids →
      ((ids.foldl (fun ms2 j =>
          ms2.map (fun r => if r.id == j then bumpAccess now r else r))
          ms).find? (fun r => r.id == i))
        = (ms.find? (fun r => r.id == i)).map (bumpAccess now) := by
  intro ids
  induction ids with
  | nil => intro ms _ h; exact absurd h (List.not_mem_nil i)
  | cons j js ih =>
    intro ms hnd hmem
    rw [List.foldl_cons]
    rcases List.mem_cons.mp hmem with heq | hmem2
    · subst heq
      have hnotin : i ∉ js := (List.nodup_cons.mp hnd).1
      rw [find?_foldBump_not_mem now i js _ hnotin, find?_bumpList]
      cases hf : ms.find? (fun r => r.id == i) with
      | none => rfl
      | some r =>
        have hid : r.id = i := by simpa using List.find?_some hf
        simp [hid]
    · have hnd2 : js.Nodup := (List.nodup_cons.mp hnd).2
      rw [ih _ hnd2 hmem2, find?_bumpList]
      cases hf : ms.find? (fun r => r.id == i) with
      | none => rfl
      | some r =>
        have hid : r.id = i := by simpa using List.find?_some hf
        have hij : i ≠ j := fun h => (List.nodup_cons.mp hnd).1 (h ▸ hmem2)
        simp [hid, hij]

/-- In a table with pairwise-distinct ids, looking a member row up by its
id finds exactly that row. -/
theorem find?_of_mem_nodup :
    ∀ (ms : List Memory), (ms.map Memory.id).Nodup → ∀ m ∈ ms,
      ms.find? (fun r => r.id == m.id) = some m := by
  intro ms
  induction ms with
  | nil => intro _ m h; exact absurd h (List.not_mem_nil m)
  | cons a as ih =>
    intro hnd m hm
    rcases List.mem_cons.mp hm with rfl | hm2
    · simp [List.find?]
    · have ha : a.id ≠ m.id := by
        intro h
        have h3 : m.id ∈ as.map Memory.id := List.mem_map_of_mem Memory.id hm2
        exact (List.nodup_cons.mp (by simpa using hnd)).1 (h ▸ h3)
      have hne : (a.id == m.id) = false := by simp [ha]
      rw [List.find?]
      rw [hne]
      exact ih (by simpa using (List.nodup_cons.mp (by simpa using hnd)).2) m hm2

/-- The state fold of `get_relevant_memories` acts on the stored rows as a
fold of per-id bumps. -/
theorem foldl_update_memories (now : Int) :
    ∀ (mems : List Memory) (db : MemoryDatabase),
      (mems.foldl (fun d m => d.update_memory_access now m.id) db).memories
        = mems.foldl (fun ms m =>
            ms.map (fun r => if r.id == m.id then bumpAccess now r else r))
            db.memories := by
  intro mems
  induction mems with
  | nil => intro db; rfl
  | cons m ms ih =>
    intro db
    rw [List.foldl_cons, List.foldl_cons, ih]
    rfl

/-- Every row returned by `get_relevant_memories` is a stored row. -/
theorem get_relevant_sub (db : MemoryDatabase) (now : Int)
    (user_id query : List Char) (limit : Nat) :
    ∀ m ∈ (MemoryManager.get_relevant_memories db now user_id query limit).1,
      m ∈ db.memories := by
  intro m hm
  simp only [MemoryManager.get_relevant_memories, MemoryDatabase.get_memories,
    MemoryDatabase.search_memories] at hm
  split at hm
  · exact take_sort_filter_sub _ _ _ m hm
  · exact take_sort_filter_sub _ _ _ m hm

/-- The rows returned by `get_relevant_memories` carry pairwise-distinct
ids whenever the stored rows do. -/
theorem get_relevant_nodup (db : MemoryDatabase) (now : Int)
    (user_id query : List Char) (limit : Nat)
    (hids : (db.memories.map Memory.id).Nodup) :
    (((MemoryManager.get_relevant_memories db now user_id query
        limit).1).map Memory.id).Nodup := by
  simp only [MemoryManager.get_relevant_memories, MemoryDatabase.get_memories,
    MemoryDatabase.search_memories]
  split
  · exact take_sort_filter_nodup _ _ _ hids
  · exact take_sort_filter_nodup _ _ _ hids

/-- C6: every memory returned by `get_relevant_memories` was a stored row,
and after the call the stored row with its id has its access count
incremented by exactly one and its `last_accessed` set to the retrieval
time, with every other field unchanged. -/
theorem get_relevant_memories_access_bump (db : MemoryDatabase) (now : Int)
    (user_id query : List Char) (limit : Nat)
    (hids : (db.memories.map Memory.id).Nodup) :
    ∀ m ∈ (MemoryManager.get_relevant_memories db now user_id query limit).1,
      db.findMem m.id = some m
      ∧ (MemoryManager.get_relevant_memories db now user_id query
          limit).2.findMem m.id
        = some { m with last_accessed := now, access_count := m.access_count + 1 } := by
  intro m hm
  have hsub := get_relevant_sub db now user_id query limit m hm
  have hfind : db.memories.find? (fun r => r.id == m.id) = some m :=
    find?_of_mem_nodup db.memories hids m hsub
  refine ⟨hfind, ?_⟩
  have hstate : (MemoryManager.get_relevant_memories db now user_id query
        limit).2.memories
      = (((MemoryManager.get_relevant_memories db now user_id query
          limit).1).map Memory.id).foldl
          (fun ms j =>
            ms.map (fun r => if r.id == j then bumpAccess now r else r))
          db.memories := by
    rw [List.foldl_map]
    exact foldl_update_memories now _ db
  have hmemid : m.id ∈ ((MemoryManager.get_relevant_memories db now user_id
      query limit).1).map Memory.id := List.mem_map_of_mem Memory.id hm
  have hnd := get_relevant_nodup db now user_id query limit hids
  show (MemoryManager.get_relevant_memories db now user_id query
      limit).2.memories.find? (fun r => r.id == m.id) = _
  rw [hstate, find?_foldBump_mem now m.id _ _ hnd hmemid, hfind]
  rfl

/-- Fixture: the stored row for the C6 witness. -/
def rowC : Memory :=
  { id := 3, user_id := "u".data, memory_content := "gamma row".data,
    context := [], created_at := 1, last_accessed := 2, access_count := 5,
    tags := [], importance_score := mkRat 1 2 }

/-- Fixture: a one-row table for the C6 witness. -/
def bumpDb : MemoryDatabase := { memories := [ rowC ], nextId := 4 }

/-- Witness for C6: retrieving with the empty query at time 42 bumps the
stored row's access count from 5 to 6 and touches `last_accessed`. -/
theorem get_relevant_memories_access_bump_witness :
    bumpDb.findMem 3 = some rowC
    ∧ (MemoryManager.get_relevant_memories bumpDb 42 "u".data [] 5).2.findMem 3
        = some { rowC with last_accessed := 42, access_count := 6 } := by
  have h := get_relevant_memories_access_bump bumpDb 42 "u".data [] 5
    (by decide) rowC (by with_unfolding_all decide)
  exact ⟨h.1, h.2⟩

/-- Every row present after `process_user_input` is either a pre-existing
row or carries the context `"From conversation: " ++ context` built from
the `context` argument of the call. -/
theorem process_user_input_new_context (db : MemoryDatabase) (now : Int)
    (user_id user_input context : List Char) :
    ∀ r ∈ (MemoryManager.process_user_input db now user_id user_input
        context).2.memories,
      r ∈ db.memories ∨ r.context = "From conversation: ".data ++ context := by
  have main : ∀ (L : List (List Char)) (acc : List Nat × MemoryDatabase),
      ∀ r ∈ (L.foldl (fun acc2 memory_content =>
            (acc2.1 ++ [ (MemoryManager.create_memory acc2.2 now user_id
                memory_content
                ("From conversation: ".data ++ context) []).1 ],
              (MemoryManager.create_memory acc2.2 now user_id memory_content
                ("From conversation: ".data ++ context) []).2)) acc).2.memories,
        r ∈ acc.2.memories ∨
          r.context = "From conversation: ".data ++ context := by
    intro L
    induction L with
    | nil => intro acc r hr; exact Or.inl hr
    | cons c cs ih =>
      intro acc r hr
      rw [List.foldl_cons] at hr
      rcases ih _ r hr with h | h
      · simp only [MemoryManager.create_memory, MemoryDatabase.create_memory,
          List.mem_append, List.mem_singleton] at h
        rcases h with h2 | h2
        · exact Or.inl h2
        · subst h2; exact Or.inr rfl
      · exact Or.inr h
  intro r hr
  simp only [MemoryManager.process_user_input] at hr
  exact main _ ([], db) r hr

/-- The access-bump fold changes neither the id nor the context of any
row: every row of the folded table is a bump of some original row. -/
theorem foldUpdate_context (now : Int) :
    ∀ (mems : List Memory) (db : MemoryDatabase),
      ∀ r ∈ (mems.foldl (fun d m =>
          d.update_memory_access now m.id) db).memories,
        ∃ r0 ∈ db.memories, r.context = r0.context ∧ r.id = r0.id := by
  intro mems
  induction mems with
  | nil => intro db r hr; exact ⟨r, hr, rfl, rfl⟩
  | cons m ms ih =>
    intro db r hr
    rw [List.foldl_cons] at hr
    rcases ih _ r hr with ⟨r1, hr1, hctx, hid⟩
    simp only [MemoryDatabase.update_memory_access] at hr1
    rcases List.mem_map.mp hr1 with ⟨r0, hr0, heq⟩
    refine ⟨r0, hr0, ?_, ?_⟩
    · rw [hctx, ← heq]
      by_cases h : (r0.id == m.id) <;> simp [h, bumpAccess]
    · rw [hid, ← heq]
      exact bump_preserves_id now m.id r0

/-- C1 (amended): `chat_with_memory` calls `process_user_input` on the
user message with the default empty context, so every row it creates from
the user's message is persisted with context exactly
`"From conversation: "`, with nothing appended.  Stated for the
no-provider run, in which the user-message step is the only one that
creates rows: every row of the final state whose id is not a stored id of
the initial state carries that context. -/
theorem chat_with_memory_context_amended (db : MemoryDatabase) (now : Int)
    (user_id user_message : List Char)
    (conversation_history : List ChatMsg) :
    ∀ r ∈ (MemoryManager.chat_with_memory none db now user_id user_message
        conversation_history).2.memories,
      r.id ∉ db.memories.map Memory.id →
        r.context = "From conversation: ".data := by
  intro r hr hid
  have hstate : (MemoryManager.chat_with_memory none db now user_id
        user_message conversation_history).2
      = (MemoryManager.get_relevant_memories
          (MemoryManager.process_user_input db now user_id user_message []).2
          now user_id user_message 5).2 := rfl
  rw [hstate] at hr
  rcases foldUpdate_context now _ _ r hr with ⟨r1, hr1, hctx, hid1⟩
  rcases process_user_input_new_context db now user_id user_message [] r1 hr1
    with h | h
  · exact absurd (hid1 ▸ List.mem_map_of_mem Memory.id h) hid
  · rw [hctx, h, List.append_nil]

/-- Counterexample to C1 as stated: in the no-provider run of
`chat_with_memory` on the message `"I like functional programming"`, the
single created memory is persisted with context `"From conversation: "`,
not `"From conversation: I like functional programming"`. -/
theorem chat_with_memory_context_counterexample :
    ((MemoryManager.chat_with_memory none emptyDb 0 "u1".data
        "I like functional programming".data []).2.memories.map Memory.context
      = [ "From conversation: ".data ])
    ∧ "From conversation: ".data
        ≠ "From conversation: ".data ++ "I like functional programming".data := by
  constructor
  · with_unfolding_all decide
  · decide

/-- Fixture: the single row the concrete C1 run creates. -/
def likedRow : Memory :=
  { id := 0, user_id := "u1".data,
    memory_content := "functional programming".data,
    context := "From conversation: ".data, created_at := 0,
    last_accessed := 0, access_count := 0, tags := [],
    importance_score := mkRat 1 2 }

/-- Witness for the amended C1: the memory created by the concrete run of
the counterexample indeed carries context `"From conversation: "`. -/
theorem chat_with_memory_context_amended_witness :
    likedRow.context = "From conversation: ".data :=
  chat_with_memory_context_amended emptyDb 0 "u1".data
    "I like functional programming".data [] likedRow
    (by with_unfolding_all decide) (by simp [emptyDb])

/-- C8: `chat_with_memory` never escalates provider problems.  With no
provider configured it returns the fixed fallback text that reports the
number of memories created from the message, paired with exactly the ids
created from the user's message; when the provider call is attempted and
fails it returns the descriptive error string, paired with exactly those
same ids and no others. -/
theorem chat_with_memory_provider_spec (db : MemoryDatabase) (now : Int)
    (user_id user_message : List Char)
    (conversation_history : List ChatMsg) :
    ((MemoryManager.chat_with_memory none db now user_id user_message
        conversation_history).1
      = ("OpenAI API key not configured. Please add your API key to the .env file. However, I created ".data ++
          (Nat.repr (MemoryManager.process_user_input db now user_id
              user_message []).1.length).data ++
          " memories from your message: \x27".data ++ user_message ++
          "\x27".data,
        (MemoryManager.process_user_input db now user_id user_message []).1))
    ∧ (∀ (p : Provider) (e : List Char),
        p (MemoryManager.chat_messages db now user_id user_message
            conversation_history) = Except.error e →
          (MemoryManager.chat_with_memory (some p) db now user_id
              user_message conversation_history).1
            = ("Error communicating with OpenAI: ".data ++ e ++
                ". Please check your API key and internet connection.".data,
              (MemoryManager.process_user_input db now user_id
                  user_message []).1)) := by
  constructor
  · rfl
  · intro p e hp
    simp only [MemoryManager.chat_messages] at hp
    simp only [MemoryManager.chat_with_memory]
    rw [hp]

/-- Fixture: a provider whose call always fails with cause `"boom"`. -/
def failProvider : Provider := fun _ => Except.error "boom".data

/-- Witness for C8: with the always-failing provider the chat returns the
error string built from the cause, paired with the user-message ids. -/
theorem chat_with_memory_provider_spec_witness :
    (MemoryManager.chat_with_memory (some failProvider) emptyDb 0 "u1".data
        "hello there friend".data []).1
      = ("Error communicating with OpenAI: ".data ++ "boom".data ++
          ". Please check your API key and internet connection.".data,
        (MemoryManager.process_user_input emptyDb 0 "u1".data
            "hello there friend".data []).1) :=
  (chat_with_memory_provider_spec emptyDb 0 "u1".data
      "hello there friend".data []).2 failProvider "boom".data rfl
